import Mathlib

/-!
Verification of the mongoose-json-patch engine.

Shallow embedding of `json_patch_mongoose.js` (class `JSONPatchMongoose`) and
of the plugin entry point in `index.js`.

Modelling conventions:
* JavaScript values occurring in a mongoose document graph are modelled by
  `JSValue`.  Top-level mongoose documents (`mongoose.Model` instances) live in
  a heap indexed by `Nat` ids; a populated reference field holds `.docRef id`
  (JS object identity = heap id).  A raw, unpopulated `ObjectId` is `.oid id`.
* mongoose collaborator operations (`Document#get`, `Document#set`,
  `populate`, `MongooseArray#pull/push/splice`, `ObjectId.isValid`) are
  modelled as pure functions on this state; each carries a comment describing
  the mongoose behaviour it models.
* JS `String#split(ch)`, `String#substring(1)`, the single-character global
  regex replace, and `parseInt` are modelled character-exactly by `jsSplit`,
  `String.drop 1` and a character map, and `parseIntJS`.
* The engine's in-place mutation of a walked array reference is modelled by
  additionally tracking where the walked node lives (owning entity id plus the
  path inside it) and rebuilding the entity functionally.
-/

/-- A JavaScript value inside a mongoose document graph.  `docRef` is a loaded
top-level document (a `mongoose.Model` instance) identified by its heap id;
`oid` is a raw `ObjectId`.  An array carries the `ref` model name of its
element schema when it is an array of references (`_schema.options.type[0].ref`),
else `none`. -/
inductive JSValue where
  | null : JSValue
  | undefined : JSValue
  | str : String → JSValue
  | num : Int → JSValue
  | bool : Bool → JSValue
  | oid : Nat → JSValue
  | docRef : Nat → JSValue
  | arr : Option String → List JSValue → JSValue
  | obj : List (String × JSValue) → JSValue

/-- JS truthiness test (`!current_object`): null, undefined, `false`, `0` and
the empty string are falsy; objects, arrays and ObjectIds are truthy. -/
def isFalsyJS : JSValue → Bool
  | .null => true
  | .undefined => true
  | .bool b => !b
  | .num n => n == 0
  | .str s => s == ""
  | _ => false

/-- `current_object == this.document`: identity comparison with the root
document (documents are compared by heap id). -/
def isRootRef (rd : Nat) : JSValue → Bool
  | .docRef i => i == rd
  | _ => false

/-- `current_object instanceof mongoose.Types.ObjectId`. -/
def oidOf : JSValue → Option Nat
  | .oid i => some i
  | _ => none

/-- `current_object instanceof mongoose.Model` (a loaded top-level document). -/
def modelRefOf : JSValue → Option Nat
  | .docRef i => some i
  | _ => none

/-- `Array.isArray`. -/
def isArrJS : JSValue → Bool
  | .arr _ _ => true
  | _ => false

/-- A plain object / embedded sub-document (used for the
`instanceof mongoose.Types.Document` branch). -/
def isObjJS : JSValue → Bool
  | .obj _ => true
  | _ => false

mutual

/-- Structural deep equality on values: model of Node's
`assert.deepStrictEqual` (and of the equality used by `MongooseArray#pull`,
which compares documents by id and casts primitives).  Object key order is not
significant in JS; the model compares fields in order, which agrees with JS on
all values built by this development. -/
def deqV : JSValue → JSValue → Bool
  | .null, .null => true
  | .undefined, .undefined => true
  | .str a, .str b => a == b
  | .num a, .num b => a == b
  | .bool a, .bool b => a == b
  | .oid a, .oid b => a == b
  | .docRef a, .docRef b => a == b
  | .arr r xs, .arr r' ys => r == r' && deqL xs ys
  | .obj fs, .obj gs => deqF fs gs
  | _, _ => false

/-- Element-wise deep equality of arrays. -/
def deqL : List JSValue → List JSValue → Bool
  | [], [] => true
  | a :: as, b :: bs => deqV a b && deqL as bs
  | _, _ => false

/-- Field-wise deep equality of objects. -/
def deqF : List (String × JSValue) → List (String × JSValue) → Bool
  | [], [] => true
  | (k, a) :: fs, (l, b) :: gs => k == l && deqV a b && deqF fs gs
  | _, _ => false

end

/-- Association-list lookup (JS object property read). -/
def lookupA {β : Type} (k : String) : List (String × β) → Option β
  | [] => none
  | (k', v) :: rest => if k' = k then some v else lookupA k rest

/-- Association-list write (JS object property assignment: overwrite in place,
append when the key is new). -/
def setA {β : Type} (k : String) (v : β) : List (String × β) → List (String × β)
  | [] => [(k, v)]
  | (k', v') :: rest => if k' = k then (k, v) :: rest else (k', v') :: setA k v rest

/-- Heap / store lookup by entity id. -/
def lookupN {β : Type} (k : Nat) : List (Nat × β) → Option β
  | [] => none
  | (k', v) :: rest => if k' = k then some v else lookupN k rest

/-- Heap / store write by entity id. -/
def setN {β : Type} (k : Nat) (v : β) : List (Nat × β) → List (Nat × β)
  | [] => [(k, v)]
  | (k', v') :: rest => if k' = k then (k, v) :: rest else (k', v') :: setN k v rest

/-- Split a character list at every occurrence of `sep`: character-exact model
of JS `String.prototype.split` with a single-character separator (`''.split`
gives `[''']`, i.e. one empty piece). -/
def splitCh (sep : Char) : List Char → List (List Char)
  | [] => [[]]
  | c :: cs =>
    match splitCh sep cs with
    | [] => [[]]
    | h :: t => if c = sep then [] :: h :: t else (c :: h) :: t

/-- JS `s.split(sep)` for a one-character separator. -/
def jsSplit (sep : Char) (s : String) : List String :=
  (splitCh sep s.data).map String.mk

/-- Digits-to-number accumulator for `parseIntJS`. -/
def digitsToNat (ds : List Char) : Nat :=
  ds.foldl (fun n c => n * 10 + (c.toNat - 48)) 0

/-- Model of JS `parseInt(s)` (radix 10): optional sign, then the longest
leading digit run; `none` models `NaN` (no digits).  `parseInt` never throws. -/
def parseIntJS (s : String) : Option Int :=
  let signAndRest : Bool × List Char :=
    match s.data with
    | '-' :: rest => (true, rest)
    | '+' :: rest => (false, rest)
    | cs => (false, cs)
  let ds := signAndRest.2.takeWhile (fun c => c.isDigit)
  if ds.isEmpty then none
  else some ((if signAndRest.1 then (-1 : Int) else 1) * (digitsToNat ds : Int))

/-- JS `Array.prototype.splice(k, 0, v)` insertion (non-negative start,
clamped to the length). -/
def jsSplice {α : Type} (xs : List α) (k : Nat) (v : α) : List α :=
  xs.take k ++ v :: xs.drop k

/-- Convert the (possibly negative, possibly NaN-as-`none`) JS splice start
index to the actual insertion position: `ToInteger(NaN) = 0`, negative counts
from the end, clamped to `[0, len]`. -/
def jsSpliceStart (ki : Option Int) (len : Nat) : Nat :=
  match ki with
  | none => 0
  | some k => if k < 0 then (len + k).toNat else k.toNat

/-- `Array.prototype.join` with a separator (used for `parts.join('.')`). -/
def joinSep (sep : String) : List String → String
  | [] => ""
  | [t] => t
  | t :: rest => t ++ sep ++ joinSep sep rest

/-- Read-only description of one schema field
(`Schema.Types.ObjectId` fields carry their `ref` model name). -/
inductive SchemaNode where
  | scalar : SchemaNode
  | oidField : Option String → SchemaNode
  | embedded : List (String × SchemaNode) → SchemaNode
  | arrayOf : Option String → SchemaNode → SchemaNode

/-- A loaded top-level mongoose document: its schema and its data
(invariantly an `.obj`). -/
structure Entity where
  schema : List (String × SchemaNode)
  data : JSValue

/-- One cached resolution record (`this.path_info[absolute_path]`). -/
structure PathInfo where
  absolute_path : String
  relative_path : String
  root : Nat
  ptype : String

/-- The whole state a patch run acts on: the root document id, the in-memory
graph of loaded documents (`heap`), the persisted store, the global mongoose
model registry, and the patcher instance state (`save_queue`, `path_info`,
plus a fresh-id counter for `new model(...)`). -/
structure PState where
  rootDoc : Nat
  heap : List (Nat × Entity)
  store : List (Nat × Entity)
  models : List (String × List (String × SchemaNode))
  save_queue : List Nat
  path_info : List (String × PathInfo)
  nextId : Nat

/-- One property read (`parent[part]`): documents and objects by field name,
arrays by `parseInt`-converted index (out of range or non-numeric gives
`undefined`), anything else gives `undefined`. -/
def getProp (heap : List (Nat × Entity)) (v : JSValue) (key : String) : JSValue :=
  match v with
  | .docRef id =>
    match lookupN id heap with
    | some e =>
      match e.data with
      | .obj fs => (lookupA key fs).getD .undefined
      | _ => .undefined
    | none => .undefined
  | .obj fs => (lookupA key fs).getD .undefined
  | .arr _ xs =>
    match parseIntJS key with
    | some k => if 0 ≤ k ∧ k.toNat < xs.length then xs.getD k.toNat .undefined else .undefined
    | none => .undefined
  | _ => .undefined

/-- Model of mongoose `Document#get` with a dotted path: split on `'.'` and
walk property by property (traversing populated references). -/
def docGet (heap : List (Nat × Entity)) (rootId : Nat) (path : String) : JSValue :=
  (jsSplit '.' path).foldl (fun v k => getProp heap v k) (.docRef rootId)

/-- One path segment of a located node: a field of an object/document or an
array index. -/
inductive Seg where
  | fld : String → Seg
  | idx : Nat → Seg

/-- Set the node addressed by `segs` inside an entity's data to the image of
`f`; a path that does not resolve leaves the value unchanged (mongoose `set`
silently ignores unresolvable paths under the default strict mode, and
in-place array mutations only ever receive resolvable locations). -/
def updateAtSegs (f : JSValue → JSValue) : JSValue → List Seg → JSValue
  | v, [] => f v
  | v, .fld k :: rest =>
    match v with
    | .obj fs =>
      match lookupA k fs with
      | some child => .obj (setA k (updateAtSegs f child rest) fs)
      | none => v
    | v => v
  | v, .idx n :: rest =>
    match v with
    | .arr r xs =>
      if n < xs.length then .arr r (xs.set n (updateAtSegs f (xs.getD n .undefined) rest)) else .arr r xs
    | v => v

/-- Model of mongoose `Document#set(path, value)` on one document: split the
dotted path, walk objects by name and arrays by index, and write the leaf.
The final key is created when missing (a set on a schema path that is not yet
present); a missing intermediate leaves the document unchanged. -/
def setIn (v : JSValue) (segs : List String) (nv : JSValue) : JSValue :=
  match segs with
  | [] => v
  | [k] =>
    match v with
    | .obj fs => .obj (setA k nv fs)
    | .arr r xs =>
      match parseIntJS k with
      | some ki => if 0 ≤ ki ∧ ki.toNat < xs.length then .arr r (xs.set ki.toNat nv) else .arr r xs
      | none => .arr r xs
    | v => v
  | k :: rest =>
    match v with
    | .obj fs =>
      match lookupA k fs with
      | some child => .obj (setA k (setIn child rest nv) fs)
      | none => v
    | .arr r xs =>
      match parseIntJS k with
      | some ki =>
        if 0 ≤ ki ∧ ki.toNat < xs.length then .arr r (xs.set ki.toNat (setIn (xs.getD ki.toNat .undefined) rest nv)) else .arr r xs
      | none => .arr r xs
    | v => v

/-- `root.set(relative_path, value)` for the heap entity `id`. -/
def heapSetPath (heap : List (Nat × Entity)) (id : Nat) (path : String) (v : JSValue) :
    List (Nat × Entity) :=
  match lookupN id heap with
  | some e => setN id { e with data := setIn e.data (jsSplit '.' path) v } heap
  | none => heap

/-- Apply `f` to the node located at `segs` inside heap entity `owner`
(write-back of an in-place mutation of a walked reference). -/
def heapUpdateAt (heap : List (Nat × Entity)) (owner : Nat) (segs : List Seg)
    (f : JSValue → JSValue) : List (Nat × Entity) :=
  match lookupN owner heap with
  | some e => setN owner { e with data := updateAtSegs f e.data segs } heap
  | none => heap

/-- Model of `mongoose.Types.ObjectId.isValid`: true for an actual ObjectId,
a 12- or 24-character string, or a number; false for a plain object literal
or array. -/
def isValidObjectId : JSValue → Bool
  | .oid _ => true
  | .str s => s.length == 12 || s.length == 24
  | .num _ => true
  | _ => false

/-- `value instanceof Object` (objects, arrays and ObjectId instances are
JS objects; primitives, null and undefined are not). -/
def isInstanceOfObject : JSValue → Bool
  | .obj _ => true
  | .arr _ _ => true
  | .oid _ => true
  | .docRef _ => true
  | _ => false

/-- `mongoose.Schema#path` on a dotted relative path: resolve the named field,
descending through embedded objects and (by numeric segment) into array
element types. -/
def schemaLookup : List (String × SchemaNode) → List String → Option SchemaNode
  | _, [] => none
  | fields, [k] => lookupA k fields
  | fields, k :: rest =>
    match lookupA k fields with
    | some (.embedded fs) => schemaLookup fs rest
    | some (.arrayOf r elem) =>
      match rest with
      | [_] =>
        match elem with
        | .oidField r' => some (.oidField (r'.orElse (fun _ => r)))
        | e => some e
      | _ => none
    | _ => none

/-- `schema_type.options.ref` of the schema node at `relative_path` of the
owning document, `none` when the path is unknown or not a reference. -/
def schemaRefAt (st : PState) (rroot : Nat) (relPath : String) : Option String :=
  match lookupN rroot st.heap with
  | some e =>
    match schemaLookup e.schema (jsSplit '.' relPath) with
    | some (.oidField (some r)) => some r
    | _ => none
  | none => none

/-- `save_queue.includes(x) || save_queue.push(x)`: push preserving identity
based deduplication. -/
def pushGuard (q : List Nat) (id : Nat) : List Nat :=
  if id ∈ q then q else q ++ [id]

/-- A reference array counts as populated when no raw ObjectId element
remains (model of `relative_root.populated(relative_path)` being truthy). -/
def arrPopulated (xs : List JSValue) : Bool :=
  xs.all (fun v => (oidOf v).isNone)

/-- Load entity `id` from the persisted store into the heap; a document that
is already loaded keeps its in-memory (possibly mutated) state. -/
def heapLoad (st : PState) (id : Nat) : PState :=
  match lookupN id st.heap with
  | some _ => st
  | none =>
    match lookupN id st.store with
    | some e => { st with heap := setN id e st.heap }
    | none => st

/-- Model of `relative_root.populate(relative_path)` for a single reference
field holding `ObjectId` `target`: load the target and replace the field by
the loaded document; a target absent from the store populates to null. -/
def populateRef (st : PState) (rroot : Nat) (relPath : String) (target : Nat) : PState :=
  let st₁ := heapLoad st target
  match lookupN target st₁.heap with
  | some _ => { st₁ with heap := heapSetPath st₁.heap rroot relPath (.docRef target) }
  | none => { st₁ with heap := heapSetPath st₁.heap rroot relPath .null }

/-- Model of `relative_root.populate(relative_path)` for a whole reference
array: load every raw ObjectId element and replace it by the loaded document. -/
def populateRefArr (st : PState) (rroot : Nat) (relPath : String) (r : Option String)
    (xs : List JSValue) : PState :=
  let st₁ := xs.foldl (fun acc v => match oidOf v with
    | some id => heapLoad acc id
    | none => acc) st
  let newXs := xs.map (fun v => match oidOf v with
    | some id => JSValue.docRef id
    | none => v)
  { st₁ with heap := heapSetPath st₁.heap rroot relPath (.arr r newXs) }

/-- One entry of `options.rules`: a path and the operations it covers
(shape used by this repository's schemas and tests). -/
structure Rule where
  path : String
  op : List String

/-- The compiled rule checker (`new JSONPatchRules(rules, {mode})`). -/
structure RulesCfg where
  rules : List Rule
  mode : String

/-- Patcher options after the constructor's `Object.assign` defaulting. -/
structure Options where
  autosave : Bool
  autopopulate : Bool
  patch_rules : Option RulesCfg

/-- Raw options object handed to the plugin / constructor
(fields absent in JS are `none`; `middleware` is not modelled — every run in
this development has no middleware installed, in which case the `apply` loop
body is exactly resolve-then-execute). -/
structure JsOptions where
  autosave : Option Bool
  autopopulate : Option Bool
  rules : Option (List Rule)
  rules_mode : Option String

/-- The constructor `new JSONPatchMongoose(schema, options)`: defaults
`autosave: false, autopopulate: true`, and compiles `patch_rules` only when
`options.rules` is set. -/
def mkPatcher (o : JsOptions) : Options :=
  { autosave := o.autosave.getD false
    autopopulate := o.autopopulate.getD true
    patch_rules := o.rules.map (fun rs => { rules := rs, mode := o.rules_mode.getD "" }) }

/-- One RFC6902 patch operation (`value`/`from` may be absent). -/
structure PatchItem where
  op : String
  path : String
  fromPath : Option String
  value : Option JSValue

/-- Reading `item.value` in JS yields `undefined` when the property is absent. -/
def itemValue (it : PatchItem) : JSValue :=
  it.value.getD .undefined

/-- Modelled from the spec: whether one operation individually matches a rule.
The rule evaluator `json-patch-rules` is an external collaborator (its code is
not part of this repository); §4.4 describes matching an operation against a
rule by verb and path. -/
def ruleMatches (it : PatchItem) (r : Rule) : Bool :=
  r.path == it.path && r.op.contains it.op

/-- Modelled from the spec: whether one operation is rejected by the rule set.
Blacklist mode rejects an operation matching any rule; whitelist mode rejects
an operation matching no rule (§4.4). -/
def opRejected (cfg : RulesCfg) (it : PatchItem) : Bool :=
  if cfg.mode == "blacklist" then cfg.rules.any (ruleMatches it)
  else !(cfg.rules.any (ruleMatches it))

/-- Modelled from the spec: `this.patch_rules.check(patch)` — the whole
operation list passes exactly when no single operation is rejected (§4.4). -/
def rulesCheck (cfg : RulesCfg) (patch : List PatchItem) : Bool :=
  patch.all (fun it => !(opRejected cfg it))

/-- Modelled from the spec: the structural RFC6902 validator (`ajv` compiled
from `schema.json`, a file not present under `src/`): every operation carries
a known verb, move/copy carry `from`, and add/replace/test carry `value`
(§6: "Structural validation of `operations` against the RFC6902 schema"). -/
def rfc6902Valid (patch : List PatchItem) : Bool :=
  patch.all (fun it =>
    (["add", "remove", "replace", "move", "copy", "test"].contains it.op) &&
    (if it.op == "move" || it.op == "copy" then it.fromPath.isSome else true) &&
    (if it.op == "add" || it.op == "replace" || it.op == "test" then it.value.isSome else true))

/-- The character rewrite performed by the global regex replace
`path.replace(/\//g, '.')`. -/
def slashToDot (c : Char) : Char :=
  if c = '/' then '.' else c

namespace JSONPatchMongoose

/-- `jsonPointerToMongoosePath`: `path.substring(1)` (drop the first
character) then the global single-character replacement of `/` by `.`.
Pure; never raises. -/
def jsonPointerToMongoosePath (path : String) : String :=
  String.mk ((path.data.drop 1).map slashToDot)

/-- `validate(patch)`: delegate to the compiled RFC6902 schema validator. -/
def validate (patch : List PatchItem) : Bool :=
  rfc6902Valid patch

/-- `setPath(path, value)`: look the absolute path up in `this.path_info` and
`set` the relative path on the recorded owning document.  A path that was
never cached makes `this.path_info[path]` undefined, so reading `.root` from
it raises a `TypeError` (modelled as an error result). -/
def setPath (st : PState) (path : String) (v : JSValue) : PState × Option String :=
  match lookupA path st.path_info with
  | none => (st, some "TypeError: this.path_info[path] is undefined")
  | some pi => ({ st with heap := heapSetPath st.heap pi.root pi.relative_path v }, none)

/-- `walkPath(path, index)` walks the dotted path from `this.document`,
dereferencing objects, and returns the node at position `index` from the end
when negative.  The JS function returns that node by reference; the model
additionally returns where the node lives (owning document id and path inside
it) so that in-place array mutations through the reference can be applied.
Inner loop of `walkPath`: at each step the part is `parseInt`-converted when
the current node is an array (`NaN` raises "Invalid index on array"), the
loop breaks without descending at the last part position. -/
def walkAux (heap : List (Nat × Entity)) :
    List String → Nat → JSValue → Nat → List Seg → Except String (JSValue × Nat × List Seg)
  | _, 0, parent, owner, osegs => .ok (parent, owner, osegs)
  | [], _ + 1, parent, owner, osegs => .ok (parent, owner, osegs)
  | part :: rest, k + 1, parent, owner, osegs =>
    if isArrJS parent && (parseIntJS part).isNone then
      .error "Invalid index on array: NaN"
    else if rest.isEmpty then .ok (parent, owner, osegs)
    else
      match parent with
      | .docRef id =>
        walkAux heap rest k (getProp heap (.docRef id) part) id [.fld part]
      | .arr r xs =>
        let seg : Seg :=
          match parseIntJS part with
          | some ki => if 0 ≤ ki then .idx ki.toNat else .fld part
          | none => .fld part
        walkAux heap rest k (getProp heap (.arr r xs) part) owner (osegs ++ [seg])
      | parent =>
        walkAux heap rest k (getProp heap parent part) owner (osegs ++ [.fld part])

/-- `walkPath(path, index)` (callers in the engine always pass `-1`,
resolving the parent of the leaf). -/
def walkPath (st : PState) (path : String) (index : Int) :
    Except String (JSValue × Nat × List Seg) :=
  let parts := jsSplit '.' path
  let idx : Int := if index < 0 then (parts.length : Int) + index else index
  walkAux st.heap parts idx.toNat (.docRef st.rootDoc) st.rootDoc []

/-- `parent.pull(value)`: mongoose pulls every element equal to the value. -/
def pullAt (st : PState) (owner : Nat) (osegs : List Seg) (cv : JSValue) : PState :=
  { st with heap := heapUpdateAt st.heap owner osegs (fun v =>
      match v with
      | .arr r xs => .arr r (xs.filter (fun x => !(deqV x cv)))
      | v => v) }

/-- `parent.push(value)`. -/
def pushAt (st : PState) (owner : Nat) (osegs : List Seg) (nv : JSValue) : PState :=
  { st with heap := heapUpdateAt st.heap owner osegs (fun v =>
      match v with
      | .arr r xs => .arr r (xs ++ [nv])
      | v => v) }

/-- `parent.splice(k, 0, value)` (a NaN start index inserts at position 0;
`parseInt` never throws, so the surrounding catch block is dead code). -/
def spliceAt (st : PState) (owner : Nat) (osegs : List Seg) (ki : Option Int) (nv : JSValue) :
    PState :=
  { st with heap := heapUpdateAt st.heap owner osegs (fun v =>
      match v with
      | .arr r xs => .arr r (jsSplice xs (jsSpliceStart ki xs.length) nv)
      | v => v) }

/-- `replace(item)`. -/
def replace (st : PState) (it : PatchItem) : PState × Option String :=
  let path := jsonPointerToMongoosePath it.path
  setPath st path (itemValue it)

/-- `remove(item)`: read the current value, walk to the parent; an array
parent pulls the value, otherwise the path is set to `undefined`. -/
def remove (st : PState) (it : PatchItem) : PState × Option String :=
  let path := jsonPointerToMongoosePath it.path
  let current_value := docGet st.heap st.rootDoc path
  match walkPath st path (-1) with
  | .error e => (st, some e)
  | .ok (parent, owner, osegs) =>
    if isArrJS parent then (pullAt st owner osegs current_value, none)
    else setPath st path .undefined

/-- The array-of-references block of `add`: when the target array's element
schema carries a `ref` and the value is an object that is not a valid
ObjectId, a new model instance is created and saved — which requires
`autosave`; otherwise the value is used unchanged. -/
def resolveAddValue (o : Options) (st : PState) (parent : JSValue) (v : JSValue) :
    Except String (PState × JSValue) :=
  match parent with
  | .arr (some refName) _ =>
    if isInstanceOfObject v then
      if !(isValidObjectId v) then
        if o.autosave = false then
          .error "Autosave must be turned on to add array elements to populated path"
        else
          let id := st.nextId
          let e : Entity := { schema := (lookupA refName st.models).getD [], data := v }
          .ok ({ st with heap := setN id e st.heap, store := setN id e st.store,
                         nextId := id + 1 }, .docRef id)
      else .ok (st, v)
    else .ok (st, v)
  | _ => .ok (st, v)

/-- `add(item)`: on an array parent, `-` appends and an integer part splices
the value in at that index; a non-array parent behaves like `replace`. -/
def add (o : Options) (st : PState) (it : PatchItem) : PState × Option String :=
  let path := jsonPointerToMongoosePath it.path
  let parts := jsSplit '.' path
  let part := parts.getLastD ""
  match walkPath st path (-1) with
  | .error e => (st, some e)
  | .ok (parent, owner, osegs) =>
    if isArrJS parent then
      match resolveAddValue o st parent (itemValue it) with
      | .error e => (st, some e)
      | .ok (st₁, v₁) =>
        if part = "-" then (pushAt st₁ owner osegs v₁, none)
        else (spliceAt st₁ owner osegs (parseIntJS part) v₁, none)
    else setPath st path (itemValue it)

/-- `copy(item)`: read `from`, write to `path`. -/
def copy (st : PState) (it : PatchItem) : PState × Option String :=
  match it.fromPath with
  | none => (st, some "TypeError: item.from is undefined")
  | some f =>
    let f' := jsonPointerToMongoosePath f
    let p' := jsonPointerToMongoosePath it.path
    let v := docGet st.heap st.rootDoc f'
    setPath st p' v

/-- `move(item)`: read `from`, write to `path`, then set `from` to `null`
through `setPath` (which consults the `path_info` cache built for `path`). -/
def move (st : PState) (it : PatchItem) : PState × Option String :=
  match it.fromPath with
  | none => (st, some "TypeError: item.from is undefined")
  | some f =>
    let f' := jsonPointerToMongoosePath f
    let p' := jsonPointerToMongoosePath it.path
    let v := docGet st.heap st.rootDoc f'
    match setPath st p' v with
    | (st₁, some e) => (st₁, some e)
    | (st₁, none) => setPath st₁ f' .null

/-- `test(item)`: compares `this.document.get(path)` — note the source passes
the raw JSON pointer, without `jsonPointerToMongoosePath` — with the supplied
value by `assert.deepStrictEqual`; a mismatch is caught and returns `false`
(the second component; `none` models the `undefined` return on success).  The
state is never changed and no error is raised. -/
def testOp (st : PState) (it : PatchItem) : (PState × Option String) × Option Bool :=
  let existing_value := docGet st.heap st.rootDoc it.path
  if deqV existing_value (itemValue it) then ((st, none), none)
  else ((st, none), some false)

/-- `save()`: persist every entity in the save queue. -/
def save (st : PState) : PState :=
  { st with store := st.save_queue.foldl (fun acc id =>
      match lookupN id st.heap with
      | some e => setN id e acc
      | none => acc) st.store }

end JSONPatchMongoose

namespace JSONPatchMongoose

/-- Build one resolution record. -/
def mkPathInfo (a r : String) (root : Nat) (t : String) : PathInfo :=
  { absolute_path := a, relative_path := r, root := root, ptype := t }

/-- One classification step of the `populatePath` walk at position `i`:
mirrors, in source order, the root / empty-node / ObjectId / Model / array /
subdocument / leaf branches, each caching its resolution record (keyed by the
absolute path current at that iteration, i.e. the first `i` parts joined with
dots) and pushing newly entered documents onto the deduplicated save queue.
Returns the updated state together with the new owning document, the new
relative-root offset (`relative_root_index + 1`), and the possibly refreshed
current node; a broken path or invalid array index is an error. -/
def popStep (o : Options) (st : PState) (parts : List String) (i rroot rriS : Nat)
    (current : JSValue) (remaining : List String) :
    Except String (PState × Nat × Nat × JSValue) :=
  let absPath := joinSep "." (parts.take i)
  let relPath := joinSep "." ((parts.take i).drop rriS)
  let cache := fun (root : Nat) (t : String) =>
    setA absPath (mkPathInfo absPath relPath root t) st.path_info
  match isRootRef st.rootDoc current with
  | true =>
    let pinfo := setA absPath (mkPathInfo "" "" st.rootDoc "root") st.path_info
    .ok ({ st with path_info := pinfo,
                   save_queue := pushGuard st.save_queue st.rootDoc }, rroot, rriS, current)
  | false =>
    match isFalsyJS current with
    | true =>
      match !remaining.isEmpty with
      | true =>
        .error "Attempt to operate on empty path - do you need to create the path first?"
      | false =>
        .ok ({ st with path_info := cache rroot "leaf" }, rroot, rriS, current)
    | false =>
      match oidOf current with
      | some target =>
        match o.autopopulate && (schemaRefAt st rroot relPath).isSome with
        | true =>
          let st₁ := { st with path_info := cache rroot "root" }
          let st₂ := populateRef st₁ rroot relPath target
          let current₂ := docGet st₂.heap rroot relPath
          match modelRefOf current₂ with
          | some newRoot =>
            .ok ({ st₂ with save_queue := pushGuard st₂.save_queue newRoot },
                 newRoot, i, current₂)
          | none => .ok (st₂, rroot, i, current₂)
        | false =>
          .ok ({ st with path_info := cache rroot "leaf" }, rroot, rriS, current)
      | none =>
        match modelRefOf current with
        | some id =>
          .ok ({ st with path_info := cache rroot "root",
                         save_queue := pushGuard st.save_queue id }, id, i, current)
        | none =>
          match isArrJS current with
          | true =>
            let idxOk : Bool :=
              match remaining with
              | [] => true
              | part :: _ => part == "-" || (parseIntJS part).isSome
            match !idxOk with
            | true => .error "Invalid array index: NaN"
            | false =>
              match current with
              | .arr (some r) xs =>
                let st₁ := { st with path_info := cache rroot "ref_array" }
                match !(arrPopulated xs) with
                | true => .ok (populateRefArr st₁ rroot relPath (some r) xs, rroot, rriS, current)
                | false => .ok (st₁, rroot, rriS, current)
              | current =>
                .ok ({ st with path_info := cache rroot "array" }, rroot, rriS, current)
          | false =>
            match isObjJS current with
            | true =>
              .ok ({ st with path_info := cache rroot "subdoc" }, rroot, rriS, current)
            | false =>
              .ok ({ st with path_info := cache rroot "leaf" }, rroot, rriS, current)

/-- The `populatePath` loop (`for i in 0..=parts.length`): classify the
current node, stop after classifying past the last part or at an append
marker, otherwise descend into the next part. -/
def popAux (o : Options) :
    PState → List String → Nat → Nat → Nat → JSValue → List String → PState × Option String
  | st, parts, i, rroot, rriS, current, [] =>
    match popStep o st parts i rroot rriS current [] with
    | .error e => (st, some e)
    | .ok (st₂, _, _, _) => (st₂, none)
  | st, parts, i, rroot, rriS, current, part :: rest =>
    match popStep o st parts i rroot rriS current (part :: rest) with
    | .error e => (st, some e)
    | .ok (st₂, rroot₂, rriS₂, current₂) =>
      if part = "-" then (st₂, none)
      else popAux o st₂ parts (i + 1) rroot₂ rriS₂ (getProp st₂.heap current₂ part) rest

/-- `populatePath(path)`: split the pointer on `/`, drop the leading empty
segment, reset `this.path_info`, and run the classification walk from the
root document. -/
def populatePath (o : Options) (st : PState) (pointer : String) : PState × Option String :=
  let parts := (jsSplit '/' pointer).drop 1
  popAux o { st with path_info := [] } parts 0 st.rootDoc 0 (.docRef st.rootDoc) parts

/-- `await this[op](item)`: dispatch on the operation verb (`test` discards
its returned failure indicator, exactly as the `apply` loop does). -/
def dispatchOp (o : Options) (st : PState) (it : PatchItem) : PState × Option String :=
  match it.op with
  | "replace" => replace st it
  | "remove" => remove st it
  | "add" => add o st it
  | "copy" => copy st it
  | "move" => move st it
  | "test" => (testOp st it).1
  | _ => (st, some "TypeError: this[op] is not a function")

/-- The per-item loop of `apply` (no middleware installed): resolve the
path, then run the operation; a raised error propagates immediately,
keeping the in-memory mutations made so far. -/
def runItems (o : Options) : PState → List PatchItem → PState × Option String
  | st, [] => (st, none)
  | st, it :: rest =>
    match populatePath o st it.path with
    | (st₁, some e) => (st₁, some e)
    | (st₁, none) =>
      match dispatchOp o st₁ it with
      | (st₂, some e) => (st₂, some e)
      | (st₂, none) => runItems o st₂ rest

/-- `apply(patch, document)`: structural validation, then the rule check when
rules were configured — both before any mutation — then the per-item loop on
`save_queue = [document]`, then `save()` when `autosave` is set. -/
def apply (o : Options) (st : PState) (patch : List PatchItem) : PState × Option String :=
  if !(validate patch) then (st, some "patch failed RFC6902 schema validation")
  else if (match o.patch_rules with
           | some cfg => !(rulesCheck cfg patch)
           | none => false) then (st, some "Patch failed rule check")
  else
    match runItems o { st with save_queue := [st.rootDoc] } patch with
    | (st₁, some e) => (st₁, some e)
    | (st₁, none) => if o.autosave then (save st₁, none) else (st₁, none)

end JSONPatchMongoose

/-- The plugin-installed document method (`schema.methods.jsonPatch`): its JS
function binds only `patch`; the patcher is constructed from the options
fixed at plugin-registration time, and any extra argument passed at call time
is simply not bound by the function. -/
def pluginJsonPatch (registrationOptions : JsOptions) (st : PState)
    (patch : List PatchItem) (_callTimeOptions : JsOptions) : PState × Option String :=
  JSONPatchMongoose.apply (mkPatcher registrationOptions) st patch

/-- Read one top-level field of a loaded document. -/
def fieldOf (st : PState) (id : Nat) (name : String) : JSValue :=
  getProp st.heap (.docRef id) name

/-- A single-document sample state used by concrete evaluations: an author
with a scalar-array field, scalar fields, and two scalar fields `a`, `b`. -/
def demoEntity : Entity :=
  { schema := [("tags", .arrayOf none .scalar), ("first_name", .scalar),
               ("a", .scalar), ("b", .scalar)],
    data := .obj [("tags", .arr none [.str "a", .str "b", .str "a"]),
                  ("first_name", .str "JRR"),
                  ("a", .str "x"), ("b", .str "y")] }

/-- Sample state rooted at `demoEntity`. -/
def demoState : PState :=
  { rootDoc := 0, heap := [(0, demoEntity)], store := [(0, demoEntity)], models := [],
    save_queue := [], path_info := [], nextId := 1 }

/-- Options with every default (`autosave: false`, `autopopulate: true`,
no rules). -/
def plainOpts : Options :=
  { autosave := false, autopopulate := true, patch_rules := none }

/-- Options with `autosave` enabled and no rules. -/
def autosaveOpts : Options :=
  { autosave := true, autopopulate := true, patch_rules := none }

/-- A root state over arbitrary top-level fields of a single document
(schema, store, model registry and fresh-id counter also parameters). -/
def mkRootState (sch : List (String × SchemaNode)) (fs : List (String × JSValue))
    (store : List (Nat × Entity)) (models : List (String × List (String × SchemaNode)))
    (n : Nat) : PState :=
  { rootDoc := 0, heap := [(0, { schema := sch, data := .obj fs })], store := store,
    models := models, save_queue := [], path_info := [], nextId := n }

theorem lookupA_setA_self {β : Type} (k : String) (v : β) (fs : List (String × β)) :
    lookupA k (setA k v fs) = some v := by
  induction fs with
  | nil => simp [setA, lookupA]
  | cons p rest ih =>
    obtain ⟨k', v'⟩ := p
    by_cases h : k' = k <;> simp [setA, lookupA, h, ih]

theorem lookupA_setA_ne {β : Type} (k k' : String) (v : β) (fs : List (String × β))
    (h : k' ≠ k) : lookupA k (setA k' v fs) = lookupA k fs := by
  induction fs with
  | nil => simp [setA, lookupA, h]
  | cons p rest ih =>
    obtain ⟨k'', v''⟩ := p
    by_cases h2 : k'' = k' <;> by_cases h3 : k'' = k <;>
      simp_all [setA, lookupA]

theorem lookupN_setN_self {β : Type} (k : Nat) (v : β) (fs : List (Nat × β)) :
    lookupN k (setN k v fs) = some v := by
  induction fs with
  | nil => simp [setN, lookupN]
  | cons p rest ih =>
    obtain ⟨k', v'⟩ := p
    by_cases h : k' = k <;> simp [setN, lookupN, h, ih]

theorem lookupN_setN_ne {β : Type} (k k' : Nat) (v : β) (fs : List (Nat × β))
    (h : k' ≠ k) : lookupN k (setN k' v fs) = lookupN k fs := by
  induction fs with
  | nil => simp [setN, lookupN, h]
  | cons p rest ih =>
    obtain ⟨k'', v''⟩ := p
    by_cases h2 : k'' = k' <;> by_cases h3 : k'' = k <;>
      simp_all [setN, lookupN]

theorem splitCh_ne_nil (sep : Char) (l : List Char) : splitCh sep l ≠ [] := by
  cases l with
  | nil => simp [splitCh]
  | cons c cs =>
    simp only [splitCh]
    cases h2 : splitCh sep cs with
    | nil => simp
    | cons h' t' =>
      simp only [h2]
      split <;> simp

theorem splitCh_not_mem {sep : Char} {l : List Char} (h : sep ∉ l) :
    splitCh sep l = [l] := by
  induction l with
  | nil => rfl
  | cons c cs ih =>
    simp only [List.mem_cons, not_or] at h
    simp [splitCh, ih h.2, Ne.symm h.1]

theorem splitCh_append_sep {sep : Char} {l₁ l₂ : List Char} (h : sep ∉ l₁) :
    splitCh sep (l₁ ++ sep :: l₂) = l₁ :: splitCh sep l₂ := by
  induction l₁ with
  | nil =>
    simp only [List.nil_append, splitCh]
    cases h2 : splitCh sep l₂ with
    | nil => exact absurd h2 (splitCh_ne_nil sep l₂)
    | cons h' t' => simp
  | cons c cs ih =>
    simp only [List.mem_cons, not_or] at h
    rw [List.cons_append]
    simp only [splitCh]
    rw [ih h.2]
    simp [Ne.symm h.1]

theorem map_slashToDot_id {l : List Char} (h : '/' ∉ l) :
    l.map slashToDot = l := by
  induction l with
  | nil => rfl
  | cons c cs ih =>
    simp only [List.mem_cons, not_or] at h
    simp [slashToDot, ih h.2, Ne.symm h.1]

theorem nodup_pushGuard {q : List Nat} (id : Nat) (h : q.Nodup) :
    (pushGuard q id).Nodup := by
  unfold pushGuard
  split
  · exact h
  · next hni =>
    rw [List.nodup_append]
    refine ⟨h, List.nodup_singleton id, fun a ha hb => ?_⟩
    rw [List.mem_singleton] at hb
    exact hni (hb ▸ ha)

/-- Claim C8, counterexample: the pointer translator never raises on malformed
input — for the malformed pointer `"abc"` (no leading separator) it returns
the string `"bc"` rather than failing with an invalid-pointer error. -/
theorem c8_counterexample :
    JSONPatchMongoose.jsonPointerToMongoosePath "abc" = "bc" ∧
    "abc".data.head? ≠ some '/' := by
  exact ⟨rfl, by decide⟩

theorem joinSep_data_map_slashToDot (segs : List String)
    (h : ∀ t ∈ segs, '/' ∉ t.data) :
    (joinSep "/" segs).data.map slashToDot = (joinSep "." segs).data := by
  induction segs with
  | nil => rfl
  | cons t rest ih =>
    cases rest with
    | nil =>
      simp [joinSep, map_slashToDot_id (h t (by simp))]
    | cons r rs =>
      have ht : '/' ∉ t.data := h t (by simp)
      have hrest : ∀ u ∈ r :: rs, '/' ∉ u.data := fun u hu => h u (by simp [hu])
      simp only [joinSep, String.data_append, List.map_append,
        map_slashToDot_id ht, ih hrest]
      simp [slashToDot]

/-- Claim C8, amended: the pointer-to-native-path translation strips the
leading separator character and converts the remaining `/`-delimited segments
into the store's dotted field-access notation; it is a pure total function
and never fails — malformed input yields a best-effort path instead of an
invalid-pointer error. -/
theorem c8_pointer_translation (segs : List String)
    (h : ∀ t ∈ segs, '/' ∉ t.data) :
    JSONPatchMongoose.jsonPointerToMongoosePath ("/" ++ joinSep "/" segs) =
      joinSep "." segs := by
  apply String.ext
  simp [JSONPatchMongoose.jsonPointerToMongoosePath, String.data_append,
    joinSep_data_map_slashToDot segs h]

/-- Claim C8, witness: the translation at a concrete well-formed two-segment
pointer. -/
theorem c8_witness :
    JSONPatchMongoose.jsonPointerToMongoosePath ("/" ++ joinSep "/" ["books", "0"]) =
      joinSep "." ["books", "0"] :=
  c8_pointer_translation ["books", "0"] (by decide)

/-- Claim C10: every call of the plugin-installed `jsonPatch` document method
forwards only the patch argument: the patcher is constructed from the options
fixed at plugin registration, so an options object supplied at call time
(rules, middleware, autosave, autopopulate) has no effect on the call. -/
theorem c10_call_time_options_ignored (reg : JsOptions) (st : PState)
    (patch : List PatchItem) (o₁ o₂ : JsOptions) :
    pluginJsonPatch reg st patch o₁ = pluginJsonPatch reg st patch o₂ ∧
    pluginJsonPatch reg st patch o₁ = JSONPatchMongoose.apply (mkPatcher reg) st patch :=
  ⟨rfl, rfl⟩

/-- Claim C6: during path resolution, a null or undefined current node with
path segments remaining fails with the broken-path error telling the caller
to create the parent first, while a null/undefined node at the final segment
is accepted as a leaf and the walk ends without error. -/
theorem c6_broken_path (o : Options) (st : PState) (parts : List String)
    (i rroot rriS : Nat) (current : JSValue) (remaining : List String)
    (h : current = JSValue.null ∨ current = JSValue.undefined) :
    (remaining ≠ [] →
      JSONPatchMongoose.popAux o st parts i rroot rriS current remaining =
        (st, some "Attempt to operate on empty path - do you need to create the path first?")) ∧
    (remaining = [] →
      (JSONPatchMongoose.popAux o st parts i rroot rriS current remaining).2 = none) := by
  constructor
  · intro hne
    cases remaining with
    | nil => exact absurd rfl hne
    | cons part rest =>
      rcases h with h | h <;> subst h <;>
        simp [JSONPatchMongoose.popAux, JSONPatchMongoose.popStep, isRootRef, isFalsyJS]
  · intro he
    subst he
    rcases h with h | h <;> subst h <;>
      simp [JSONPatchMongoose.popAux, JSONPatchMongoose.popStep, isRootRef, isFalsyJS]

/-- Claim C6, witness: a null node one segment before the end of `/a/b` raises
the broken-path error; a null node at the end of `/a` resolves as a leaf. -/
theorem c6_witness :
    JSONPatchMongoose.popAux plainOpts demoState ["a", "b"] 1 0 0 JSValue.null ["b"] =
      (demoState,
        some "Attempt to operate on empty path - do you need to create the path first?") ∧
    (JSONPatchMongoose.popAux plainOpts demoState ["a"] 1 0 0 JSValue.null []).2 = none :=
  ⟨(c6_broken_path plainOpts demoState ["a", "b"] 1 0 0 JSValue.null ["b"] (Or.inl rfl)).1
     (by decide),
   (c6_broken_path plainOpts demoState ["a"] 1 0 0 JSValue.null [] (Or.inl rfl)).2 rfl⟩

/-- Claim C3, evaluation at the failing input: removing `/tags/0` from
`tags = ["a", "b", "a"]` succeeds but pulls the element by value, deleting
every element equal to `"a"` and leaving `["b"]` — not `["b", "a"]` as
per-index removal requires.  The non-sequence half of the claim holds: after
removing the scalar field `/first_name` the field reads as the absent
sentinel (`undefined`, not `null`). -/
theorem c3_remove_eval :
    (JSONPatchMongoose.apply plainOpts demoState
      [{ op := "remove", path := "/tags/0", fromPath := none, value := none }]).2 = none ∧
    fieldOf (JSONPatchMongoose.apply plainOpts demoState
      [{ op := "remove", path := "/tags/0", fromPath := none, value := none }]).1 0 "tags"
      = .arr none [.str "b"] ∧
    fieldOf (JSONPatchMongoose.apply plainOpts demoState
      [{ op := "remove", path := "/first_name", fromPath := none, value := none }]).1 0 "first_name"
      = .undefined :=
  ⟨rfl, rfl, rfl⟩

/-- Claim C5, evaluation at the failing input: `test` reads
`this.document.get(path)` with the raw JSON pointer instead of the translated
path, so even though the stored value at the translated path equals the
supplied value, the operation returns the failure indicator `false`.  The
failure-handling half of the claim does hold: the mismatch neither throws nor
aborts the patch, and the following `replace` still executes. -/
theorem c5_test_eval :
    (JSONPatchMongoose.testOp demoState
      { op := "test", path := "/first_name", fromPath := none,
        value := some (.str "JRR") }).2 = some false ∧
    docGet demoState.heap 0
      (JSONPatchMongoose.jsonPointerToMongoosePath "/first_name") = .str "JRR" ∧
    (JSONPatchMongoose.apply plainOpts demoState
      [{ op := "test", path := "/first_name", fromPath := none, value := some (.str "JRR") },
       { op := "replace", path := "/a", fromPath := none, value := some (.str "new") }]).2
      = none ∧
    fieldOf (JSONPatchMongoose.apply plainOpts demoState
      [{ op := "test", path := "/first_name", fromPath := none, value := some (.str "JRR") },
       { op := "replace", path := "/a", fromPath := none, value := some (.str "new") }]).1 0 "a"
      = .str "new" :=
  ⟨rfl, rfl, rfl, rfl⟩

/-- Claim C4, counterexample: for the document `{a: "x", b: "y"}` and the single
operation `move from=/a path=/b`, the call raises (the resolution cache built
for `/b` has no record for `a`, so `setPath` hits an undefined record) and the
source field `a` afterwards still reads `"x"` — it is neither unset nor null,
contradicting the claim that the from location is set to the absent sentinel
and reads as unset. -/
theorem c4_counterexample :
    ((JSONPatchMongoose.apply plainOpts demoState
      [{ op := "move", path := "/b", fromPath := some "/a", value := none }]).2).isSome = true ∧
    fieldOf (JSONPatchMongoose.apply plainOpts demoState
      [{ op := "move", path := "/b", fromPath := some "/a", value := none }]).1 0 "a"
      = .str "x" ∧
    fieldOf (JSONPatchMongoose.apply plainOpts demoState
      [{ op := "move", path := "/b", fromPath := some "/a", value := none }]).1 0 "b"
      = .str "x" :=
  ⟨rfl, rfl, rfl⟩

/-- Claim C4, amended: `move` reads the value at `from` and writes it to the
target path, and then attempts to clear the source by writing `null` (not the
absent sentinel) through the resolution cache built for the target path only:
when the from pointer is the target pointer itself (or another cached prefix)
the source is set to `null` and afterwards reads as null — set but null, not
unset; for any other from pointer the cached record is missing, the operation
raises after the target write, and the source keeps its prior value.  No
array-aware element removal is performed at the source in any case. -/
theorem c4_move_amended (fs : List (String × JSValue)) (sa sb : String)
    (hsrc : lookupA "src" fs = some (.str sa))
    (hdst : lookupA "dst" fs = some (.str sb))
    (hsa : sa ≠ "") (hsb : sb ≠ "") :
    ((JSONPatchMongoose.apply plainOpts (mkRootState [] fs [] [] 1)
        [{ op := "move", path := "/dst", fromPath := some "/src", value := none }]).2).isSome
      = true ∧
    fieldOf (JSONPatchMongoose.apply plainOpts (mkRootState [] fs [] [] 1)
        [{ op := "move", path := "/dst", fromPath := some "/src", value := none }]).1 0 "dst"
      = .str sa ∧
    fieldOf (JSONPatchMongoose.apply plainOpts (mkRootState [] fs [] [] 1)
        [{ op := "move", path := "/dst", fromPath := some "/src", value := none }]).1 0 "src"
      = .str sa ∧
    (JSONPatchMongoose.apply plainOpts (mkRootState [] fs [] [] 1)
        [{ op := "move", path := "/src", fromPath := some "/src", value := none }]).2 = none ∧
    fieldOf (JSONPatchMongoose.apply plainOpts (mkRootState [] fs [] [] 1)
        [{ op := "move", path := "/src", fromPath := some "/src", value := none }]).1 0 "src"
      = .null := by
  have hsb' : (sb == "") = false := by simp [hsb]
  have hsa' : (sa == "") = false := by simp [hsa]
  refine ⟨?_, ?_, ?_, ?_, ?_⟩ <;>
    simp [JSONPatchMongoose.apply, JSONPatchMongoose.validate, rfc6902Valid,
      JSONPatchMongoose.runItems, JSONPatchMongoose.populatePath, JSONPatchMongoose.popAux,
      JSONPatchMongoose.popStep, JSONPatchMongoose.dispatchOp, JSONPatchMongoose.move,
      JSONPatchMongoose.setPath, JSONPatchMongoose.jsonPointerToMongoosePath,
      jsSplit, splitCh, isRootRef, isFalsyJS, oidOf, modelRefOf, isArrJS, isObjJS,
      getProp, docGet, heapSetPath, setIn, lookupN, setN, mkRootState,
      JSONPatchMongoose.mkPathInfo, pushGuard, fieldOf, itemValue, hsrc, hdst, hsb', hsa',
      plainOpts, rulesCheck, JSONPatchMongoose.save,
      joinSep, slashToDot, lookupA_setA_self, lookupA_setA_ne, lookupA, setA]

/-- Claim C4, witness: the amended statement at the concrete document
`{src: "x", dst: "y"}`. -/
theorem c4_witness :
    ((JSONPatchMongoose.apply plainOpts
        (mkRootState [] [("src", .str "x"), ("dst", .str "y")] [] [] 1)
        [{ op := "move", path := "/dst", fromPath := some "/src", value := none }]).2).isSome
      = true ∧
    fieldOf (JSONPatchMongoose.apply plainOpts
        (mkRootState [] [("src", .str "x"), ("dst", .str "y")] [] [] 1)
        [{ op := "move", path := "/dst", fromPath := some "/src", value := none }]).1 0 "dst"
      = .str "x" ∧
    fieldOf (JSONPatchMongoose.apply plainOpts
        (mkRootState [] [("src", .str "x"), ("dst", .str "y")] [] [] 1)
        [{ op := "move", path := "/dst", fromPath := some "/src", value := none }]).1 0 "src"
      = .str "x" ∧
    (JSONPatchMongoose.apply plainOpts
        (mkRootState [] [("src", .str "x"), ("dst", .str "y")] [] [] 1)
        [{ op := "move", path := "/src", fromPath := some "/src", value := none }]).2 = none ∧
    fieldOf (JSONPatchMongoose.apply plainOpts
        (mkRootState [] [("src", .str "x"), ("dst", .str "y")] [] [] 1)
        [{ op := "move", path := "/src", fromPath := some "/src", value := none }]).1 0 "src"
      = .null :=
  c4_move_amended [("src", .str "x"), ("dst", .str "y")] "x" "y" rfl rfl
    (by decide) (by decide)

/-- Claim C7: two append-marker `add` operations with values `v1` then `v2` on a
sequence of length `N` produce a sequence of length `N + 2` whose first `N`
elements are unchanged, with `v1` at index `N` and `v2` at index `N + 1`; and
an integer-index `add` (any index literal `s` denoting `k < N`) inserts at
`k`, shifting the pre-existing element at that index one place right rather
than overwriting it.  Stated for a sequence of scalar (non-empty-string)
elements that is not an array of references — reference arrays transform the
inserted value first (claim C2). -/
theorem c7_array_add (fs : List (String × JSValue)) (xs : List JSValue)
    (v1 v2 : JSValue) (s : String) (k : Nat) (v3 : JSValue)
    (hitems : lookupA "items" fs = some (.arr none xs))
    (hs : parseIntJS s = some (k : Int))
    (hk : k < xs.length)
    (hdash : s ≠ "-")
    (hslash : '/' ∉ s.data)
    (hdot : '.' ∉ s.data)
    (hxs : ∀ x ∈ xs, ∃ t : String, x = .str t ∧ t ≠ "") :
    (JSONPatchMongoose.apply plainOpts (mkRootState [] fs [] [] 1)
      [{ op := "add", path := "/items/-", fromPath := none, value := some v1 },
       { op := "add", path := "/items/-", fromPath := none, value := some v2 }]).2 = none ∧
    fieldOf (JSONPatchMongoose.apply plainOpts (mkRootState [] fs [] [] 1)
      [{ op := "add", path := "/items/-", fromPath := none, value := some v1 },
       { op := "add", path := "/items/-", fromPath := none, value := some v2 }]).1 0 "items"
      = .arr none (xs ++ [v1, v2]) ∧
    (xs ++ [v1, v2]).length = xs.length + 2 ∧
    (xs ++ [v1, v2]).take xs.length = xs ∧
    (xs ++ [v1, v2])[xs.length]? = some v1 ∧
    (xs ++ [v1, v2])[xs.length + 1]? = some v2 ∧
    (JSONPatchMongoose.apply plainOpts (mkRootState [] fs [] [] 1)
      [{ op := "add", path := "/items/" ++ s, fromPath := none, value := some v3 }]).2 = none ∧
    fieldOf (JSONPatchMongoose.apply plainOpts (mkRootState [] fs [] [] 1)
      [{ op := "add", path := "/items/" ++ s, fromPath := none, value := some v3 }]).1 0 "items"
      = .arr none (jsSplice xs k v3) ∧
    (jsSplice xs k v3).length = xs.length + 1 ∧
    (jsSplice xs k v3)[k]? = some v3 ∧
    (jsSplice xs k v3)[k + 1]? = xs[k]? := by
  have hmem : xs.getD k .undefined ∈ xs := by
    rw [List.getD_eq_getElem xs .undefined hk]
    exact List.getElem_mem hk
  obtain ⟨t, hel, ht⟩ := hxs _ hmem
  have hel2 : xs[k] = JSValue.str t := by
    rw [List.getD_eq_getElem xs .undefined hk] at hel
    exact hel
  have ht' : (t == "") = false := by simp [ht]
  have hdata : ("/items/" ++ s).data
      = '/' :: (('i' :: 't' :: 'e' :: 'm' :: 's' :: []) ++ '/' :: s.data) := by
    simp [String.data_append]
  have h0 : (jsSplit '/' ("/items/" ++ s)).drop 1 = ["items", s] := by
    simp only [jsSplit, hdata, splitCh, List.cons_append, List.nil_append, List.append]
    rw [splitCh_not_mem hslash]
    simp
  have h1 : JSONPatchMongoose.jsonPointerToMongoosePath ("/items/" ++ s) = "items." ++ s := by
    apply String.ext
    simp [JSONPatchMongoose.jsonPointerToMongoosePath, hdata, String.data_append,
      map_slashToDot_id hslash, slashToDot]
  have h2 : jsSplit '.' ("items." ++ s) = ["items", s] := by
    simp only [jsSplit, String.data_append]
    simp only [splitCh, List.cons_append, List.nil_append, List.append]
    rw [splitCh_not_mem hdot]
    simp
  have hknn : ¬ ((k : Int) < 0) := by omega
  have e1 : ¬ (("" : String) = "items." ++ s) := by
    intro h
    have h' := congrArg String.data h
    simp [String.data_append] at h'
  have e2 : ¬ (("items" : String) = "items." ++ s) := by
    intro h
    have h' := congrArg String.data h
    simp [String.data_append] at h'
  have hlen : (List.take k xs).length = k := by
    simp [List.length_take, Nat.min_eq_left (Nat.le_of_lt hk)]
  refine ⟨?_, ?_, by simp, by simp [List.take_left], ?_, ?_, ?_, ?_, ?_, ?_, ?_⟩
  · simp [JSONPatchMongoose.apply, JSONPatchMongoose.validate, rfc6902Valid,
      JSONPatchMongoose.runItems, JSONPatchMongoose.populatePath, JSONPatchMongoose.popAux,
      JSONPatchMongoose.popStep, JSONPatchMongoose.dispatchOp, JSONPatchMongoose.add,
      JSONPatchMongoose.walkPath, JSONPatchMongoose.walkAux, JSONPatchMongoose.pushAt,
      JSONPatchMongoose.resolveAddValue, JSONPatchMongoose.setPath,
      JSONPatchMongoose.jsonPointerToMongoosePath,
      jsSplit, splitCh, isRootRef, isFalsyJS, oidOf, modelRefOf, isArrJS, isObjJS,
      getProp, docGet, heapSetPath, heapUpdateAt, updateAtSegs, setIn, lookupN, setN,
      mkRootState, JSONPatchMongoose.mkPathInfo, pushGuard, fieldOf, itemValue,
      hitems, plainOpts, rulesCheck, JSONPatchMongoose.save, arrPopulated,
      joinSep, slashToDot, lookupA_setA_self, lookupA_setA_ne, lookupA, setA]
  · simp [JSONPatchMongoose.apply, JSONPatchMongoose.validate, rfc6902Valid,
      JSONPatchMongoose.runItems, JSONPatchMongoose.populatePath, JSONPatchMongoose.popAux,
      JSONPatchMongoose.popStep, JSONPatchMongoose.dispatchOp, JSONPatchMongoose.add,
      JSONPatchMongoose.walkPath, JSONPatchMongoose.walkAux, JSONPatchMongoose.pushAt,
      JSONPatchMongoose.resolveAddValue, JSONPatchMongoose.setPath,
      JSONPatchMongoose.jsonPointerToMongoosePath,
      jsSplit, splitCh, isRootRef, isFalsyJS, oidOf, modelRefOf, isArrJS, isObjJS,
      getProp, docGet, heapSetPath, heapUpdateAt, updateAtSegs, setIn, lookupN, setN,
      mkRootState, JSONPatchMongoose.mkPathInfo, pushGuard, fieldOf, itemValue,
      hitems, plainOpts, rulesCheck, JSONPatchMongoose.save, arrPopulated,
      joinSep, slashToDot, lookupA_setA_self, lookupA_setA_ne, lookupA, setA]
  · rw [List.getElem?_append_right (le_refl xs.length)]
    simp
  · rw [List.getElem?_append_right (by omega)]
    simp
  · simp [JSONPatchMongoose.apply, JSONPatchMongoose.validate, rfc6902Valid,
      JSONPatchMongoose.runItems, JSONPatchMongoose.populatePath, JSONPatchMongoose.popAux,
      JSONPatchMongoose.popStep, JSONPatchMongoose.dispatchOp, JSONPatchMongoose.add,
      JSONPatchMongoose.walkPath, JSONPatchMongoose.walkAux, JSONPatchMongoose.spliceAt,
      JSONPatchMongoose.resolveAddValue, JSONPatchMongoose.setPath,
      h0, h1, h2, hs, hk, hdash, hel2, ht', hknn, e1, e2, jsSpliceStart,
      isRootRef, isFalsyJS, oidOf, modelRefOf, isArrJS, isObjJS,
      getProp, docGet, heapSetPath, heapUpdateAt, updateAtSegs, setIn, lookupN, setN,
      mkRootState, JSONPatchMongoose.mkPathInfo, pushGuard, fieldOf, itemValue,
      hitems, plainOpts, rulesCheck, JSONPatchMongoose.save, arrPopulated,
      joinSep, lookupA_setA_self, lookupA_setA_ne, lookupA, setA]
  · simp [JSONPatchMongoose.apply, JSONPatchMongoose.validate, rfc6902Valid,
      JSONPatchMongoose.runItems, JSONPatchMongoose.populatePath, JSONPatchMongoose.popAux,
      JSONPatchMongoose.popStep, JSONPatchMongoose.dispatchOp, JSONPatchMongoose.add,
      JSONPatchMongoose.walkPath, JSONPatchMongoose.walkAux, JSONPatchMongoose.spliceAt,
      JSONPatchMongoose.resolveAddValue, JSONPatchMongoose.setPath,
      h0, h1, h2, hs, hk, hdash, hel2, ht', hknn, e1, e2, jsSpliceStart,
      isRootRef, isFalsyJS, oidOf, modelRefOf, isArrJS, isObjJS,
      getProp, docGet, heapSetPath, heapUpdateAt, updateAtSegs, setIn, lookupN, setN,
      mkRootState, JSONPatchMongoose.mkPathInfo, pushGuard, fieldOf, itemValue,
      hitems, plainOpts, rulesCheck, JSONPatchMongoose.save, arrPopulated,
      joinSep, lookupA_setA_self, lookupA_setA_ne, lookupA, setA]
  · simp [jsSplice, Nat.min_eq_left (Nat.le_of_lt hk)]
    omega
  · unfold jsSplice
    rw [List.getElem?_append_right (by omega)]
    rw [hlen]
    simp
  · unfold jsSplice
    rw [List.getElem?_append_right (by omega)]
    rw [hlen]
    have h3 : k + 1 - k = 1 := by omega
    rw [h3]
    simp [List.getElem?_drop]

/-- Claim C7, witness: the appended values land at indices 2 and 3 of a
two-element sequence, and an `add` at index literal `"1"` inserts before the
pre-existing element. -/
theorem c7_witness :
    fieldOf (JSONPatchMongoose.apply plainOpts
        (mkRootState [] [("items", .arr none [.str "p", .str "q"])] [] [] 1)
        [{ op := "add", path := "/items/-", fromPath := none, value := some (.str "r") },
         { op := "add", path := "/items/-", fromPath := none, value := some (.str "w") }]).1
        0 "items"
      = .arr none ([.str "p", .str "q"] ++ [.str "r", .str "w"]) ∧
    fieldOf (JSONPatchMongoose.apply plainOpts
        (mkRootState [] [("items", .arr none [.str "p", .str "q"])] [] [] 1)
        [{ op := "add", path := "/items/" ++ "1", fromPath := none, value := some (.str "z") }]).1
        0 "items"
      = .arr none (jsSplice [.str "p", .str "q"] 1 (.str "z")) := by
  have h := c7_array_add [("items", .arr none [.str "p", .str "q"])]
    [.str "p", .str "q"] (.str "r") (.str "w") "1" 1 (.str "z")
    rfl (by decide) (by decide) (by decide) (by decide) (by decide)
    (by
      intro x hx
      simp at hx
      rcases hx with h | h
      · exact ⟨"p", h, by decide⟩
      · exact ⟨"q", h, by decide⟩)
  exact ⟨h.2.1, h.2.2.2.2.2.2.2.1⟩

/-- Claim C1: when the configured rule set rejects any single operation of the
patch (blacklist: the operation matches a rule; whitelist: it matches none),
the whole `apply` call fails before any operation is executed: the returned
state is exactly the input state — document graph unchanged, nothing pushed
onto the save queue, nothing persisted. -/
theorem c1_rules_fail_closed (o : Options) (st : PState) (patch : List PatchItem)
    (cfg : RulesCfg) (hcfg : o.patch_rules = some cfg)
    (hrej : ∃ it ∈ patch, opRejected cfg it = true) :
    (JSONPatchMongoose.apply o st patch).1 = st ∧
    ((JSONPatchMongoose.apply o st patch).2).isSome = true := by
  obtain ⟨it, hmem, hop⟩ := hrej
  have hcheck : rulesCheck cfg patch = false := by
    unfold rulesCheck
    rw [List.all_eq_false]
    exact ⟨it, hmem, by simp [hop]⟩
  unfold JSONPatchMongoose.apply
  by_cases hv : JSONPatchMongoose.validate patch
  · simp [hv, hcfg, hcheck]
  · simp [hv]

/-- Claim C1, witness: the repository's blacklist configuration (the `/publisher`
path with every verb) rejects a `replace` of `/publisher`, and the call
returns the untouched input state together with an error. -/
theorem c1_witness :
    (JSONPatchMongoose.apply
      { autosave := true, autopopulate := true,
        patch_rules := some { rules := [{ path := "/publisher", op := ["add", "replace", "copy", "move", "remove", "test"] }], mode := "blacklist" } }
      demoState
      [{ op := "replace", path := "/publisher", fromPath := none,
         value := some (.str "Random House") }]).1 = demoState ∧
    ((JSONPatchMongoose.apply
      { autosave := true, autopopulate := true,
        patch_rules := some { rules := [{ path := "/publisher", op := ["add", "replace", "copy", "move", "remove", "test"] }], mode := "blacklist" } }
      demoState
      [{ op := "replace", path := "/publisher", fromPath := none,
         value := some (.str "Random House") }]).2).isSome = true :=
  c1_rules_fail_closed _ demoState _ _ rfl
    ⟨{ op := "replace", path := "/publisher", fromPath := none,
       value := some (.str "Random House") }, by simp, by decide⟩

/-- Claim C2: an `add` whose target is an array of references and whose value
is an object literal (never a valid id for the referenced type): with
auto-persist disabled the operation fails with the configuration error and
nothing is inserted (array, store and fresh-id counter unchanged); with
auto-persist enabled a new entity is created from the value, persisted, and a
reference to its id is appended to the array.  A value already shaped like a
valid id is inserted directly and no entity is created. -/
theorem c2_ref_array_add (fs vfs : List (String × JSValue)) (xs : List JSValue)
    (S : List (Nat × Entity)) (M : List (String × List (String × SchemaNode)))
    (n m : Nat)
    (hbooks : lookupA "books" fs = some (.arr (some "Book") xs))
    (hpop : arrPopulated xs = true)
    (hn : n ≠ 0) :
    (JSONPatchMongoose.apply plainOpts (mkRootState [] fs S M n)
      [{ op := "add", path := "/books/-", fromPath := none, value := some (.obj vfs) }]).2
      = some "Autosave must be turned on to add array elements to populated path" ∧
    fieldOf (JSONPatchMongoose.apply plainOpts (mkRootState [] fs S M n)
      [{ op := "add", path := "/books/-", fromPath := none, value := some (.obj vfs) }]).1
      0 "books" = .arr (some "Book") xs ∧
    (JSONPatchMongoose.apply plainOpts (mkRootState [] fs S M n)
      [{ op := "add", path := "/books/-", fromPath := none, value := some (.obj vfs) }]).1.store
      = S ∧
    (JSONPatchMongoose.apply plainOpts (mkRootState [] fs S M n)
      [{ op := "add", path := "/books/-", fromPath := none, value := some (.obj vfs) }]).1.nextId
      = n ∧
    (JSONPatchMongoose.apply autosaveOpts (mkRootState [] fs S M n)
      [{ op := "add", path := "/books/-", fromPath := none, value := some (.obj vfs) }]).2
      = none ∧
    fieldOf (JSONPatchMongoose.apply autosaveOpts (mkRootState [] fs S M n)
      [{ op := "add", path := "/books/-", fromPath := none, value := some (.obj vfs) }]).1
      0 "books" = .arr (some "Book") (xs ++ [.docRef n]) ∧
    lookupN n (JSONPatchMongoose.apply autosaveOpts (mkRootState [] fs S M n)
      [{ op := "add", path := "/books/-", fromPath := none, value := some (.obj vfs) }]).1.store
      = some { schema := (lookupA "Book" M).getD [], data := .obj vfs } ∧
    (JSONPatchMongoose.apply autosaveOpts (mkRootState [] fs S M n)
      [{ op := "add", path := "/books/-", fromPath := none, value := some (.oid m) }]).2
      = none ∧
    fieldOf (JSONPatchMongoose.apply autosaveOpts (mkRootState [] fs S M n)
      [{ op := "add", path := "/books/-", fromPath := none, value := some (.oid m) }]).1
      0 "books" = .arr (some "Book") (xs ++ [.oid m]) ∧
    (JSONPatchMongoose.apply autosaveOpts (mkRootState [] fs S M n)
      [{ op := "add", path := "/books/-", fromPath := none, value := some (.oid m) }]).1.nextId
      = n := by
  refine ⟨?_, ?_, ?_, ?_, ?_, ?_, ?_, ?_, ?_, ?_⟩ <;>
    simp [JSONPatchMongoose.apply, JSONPatchMongoose.validate, rfc6902Valid,
      JSONPatchMongoose.runItems, JSONPatchMongoose.populatePath, JSONPatchMongoose.popAux,
      JSONPatchMongoose.popStep, JSONPatchMongoose.dispatchOp, JSONPatchMongoose.add,
      JSONPatchMongoose.walkPath, JSONPatchMongoose.walkAux, JSONPatchMongoose.pushAt,
      JSONPatchMongoose.resolveAddValue, JSONPatchMongoose.setPath,
      JSONPatchMongoose.jsonPointerToMongoosePath, isValidObjectId, isInstanceOfObject,
      jsSplit, splitCh, isRootRef, isFalsyJS, oidOf, modelRefOf, isArrJS, isObjJS,
      getProp, docGet, heapSetPath, heapUpdateAt, updateAtSegs, setIn, lookupN, setN,
      mkRootState, JSONPatchMongoose.mkPathInfo, pushGuard, fieldOf, itemValue,
      hbooks, hpop, hn, Ne.symm hn, plainOpts, autosaveOpts, rulesCheck,
      JSONPatchMongoose.save,
      lookupN_setN_self, lookupN_setN_ne,
      joinSep, slashToDot, lookupA_setA_self, lookupA_setA_ne, lookupA, setA]

/-- Claim C2, witness: the series/book scenario — with autosave off the call
fails with the configuration error; with autosave on the new Book entity is
persisted under the fresh id 2 and `books` gains a reference to it. -/
theorem c2_witness :
    (JSONPatchMongoose.apply plainOpts
      (mkRootState [] [("books", .arr (some "Book") [.docRef 1])] []
        [("Book", [("name", .scalar)])] 2)
      [{ op := "add", path := "/books/-", fromPath := none,
         value := some (.obj [("name", .str "Fellowship")]) }]).2
      = some "Autosave must be turned on to add array elements to populated path" ∧
    fieldOf (JSONPatchMongoose.apply autosaveOpts
      (mkRootState [] [("books", .arr (some "Book") [.docRef 1])] []
        [("Book", [("name", .scalar)])] 2)
      [{ op := "add", path := "/books/-", fromPath := none,
         value := some (.obj [("name", .str "Fellowship")]) }]).1 0 "books"
      = .arr (some "Book") ([.docRef 1] ++ [.docRef 2]) ∧
    lookupN 2 (JSONPatchMongoose.apply autosaveOpts
      (mkRootState [] [("books", .arr (some "Book") [.docRef 1])] []
        [("Book", [("name", .scalar)])] 2)
      [{ op := "add", path := "/books/-", fromPath := none,
         value := some (.obj [("name", .str "Fellowship")]) }]).1.store
      = some { schema := (lookupA "Book" [("Book", [("name", .scalar)])]).getD [],
               data := .obj [("name", .str "Fellowship")] } := by
  have h := c2_ref_array_add [("books", .arr (some "Book") [.docRef 1])]
    [("name", .str "Fellowship")] [.docRef 1] [] [("Book", [("name", .scalar)])] 2 7
    rfl (by decide) (by decide)
  exact ⟨h.1, h.2.2.2.2.2.1, h.2.2.2.2.2.2.1⟩

theorem heapLoad_queue (st : PState) (id : Nat) :
    (heapLoad st id).save_queue = st.save_queue := by
  unfold heapLoad
  split
  · rfl
  · split <;> rfl

theorem heapLoads_queue (xs : List JSValue) (st : PState) :
    (List.foldl (fun acc v => match oidOf v with
      | some id => heapLoad acc id
      | none => acc) st xs).save_queue = st.save_queue := by
  induction xs generalizing st with
  | nil => rfl
  | cons x rest ih =>
    simp only [List.foldl_cons]
    rw [ih]
    cases x <;> simp [oidOf, heapLoad_queue]

theorem populateRef_queue (st : PState) (rr : Nat) (p : String) (t : Nat) :
    (populateRef st rr p t).save_queue = st.save_queue := by
  unfold populateRef
  dsimp only
  split <;> simp [heapLoad_queue]

theorem populateRefArr_queue (st : PState) (rr : Nat) (p : String) (r : Option String)
    (xs : List JSValue) :
    (populateRefArr st rr p r xs).save_queue = st.save_queue := by
  unfold populateRefArr
  simp [heapLoads_queue]

theorem popStep_nodup (o : Options) (st : PState) (parts : List String)
    (i rroot rriS : Nat) (current : JSValue) (remaining : List String)
    (st₂ : PState) (r2 rr2 : Nat) (c2 : JSValue)
    (hnd : st.save_queue.Nodup)
    (hok : JSONPatchMongoose.popStep o st parts i rroot rriS current remaining
      = .ok (st₂, r2, rr2, c2)) :
    st₂.save_queue.Nodup := by
  unfold JSONPatchMongoose.popStep at hok
  repeat' split at hok
  all_goals
    try (first
    | exact Except.noConfusion hok
    | (simp only [Except.ok.injEq, Prod.mk.injEq] at hok
       obtain ⟨h2, -, -, -⟩ := hok
       subst h2
       first
       | exact hnd
       | exact nodup_pushGuard _ hnd
       | (simp only [populateRef_queue, populateRefArr_queue]
          first
          | exact hnd
          | exact nodup_pushGuard _ hnd)))
  all_goals
    (cases hap : o.autopopulate &&
        (schemaRefAt st rroot (joinSep "." (List.drop rriS (List.take i parts)))).isSome <;>
      simp only [hap] at hok)
  all_goals repeat' split at hok
  all_goals
    first
    | exact Except.noConfusion hok
    | (simp only [Except.ok.injEq, Prod.mk.injEq] at hok
       obtain ⟨h2, -, -, -⟩ := hok
       subst h2
       first
       | exact hnd
       | exact nodup_pushGuard _ hnd
       | (simp only [populateRef_queue, populateRefArr_queue]
          first
          | exact hnd
          | exact nodup_pushGuard _ hnd))

theorem popAux_nodup (o : Options) :
    ∀ (remaining : List String) (st : PState) (parts : List String) (i rroot rriS : Nat)
      (current : JSValue), st.save_queue.Nodup →
      ((JSONPatchMongoose.popAux o st parts i rroot rriS current remaining).1).save_queue.Nodup := by
  intro remaining
  induction remaining with
  | nil =>
    intro st parts i rroot rriS current hnd
    unfold JSONPatchMongoose.popAux
    cases hok : JSONPatchMongoose.popStep o st parts i rroot rriS current [] with
    | error e => simpa using hnd
    | ok res =>
      obtain ⟨st₂, r2, rr2, c2⟩ := res
      simp only [hok]
      exact popStep_nodup o st parts i rroot rriS current [] st₂ r2 rr2 c2 hnd hok
  | cons part rest ih =>
    intro st parts i rroot rriS current hnd
    unfold JSONPatchMongoose.popAux
    cases hok : JSONPatchMongoose.popStep o st parts i rroot rriS current (part :: rest) with
    | error e => simpa using hnd
    | ok res =>
      obtain ⟨st₂, r2, rr2, c2⟩ := res
      simp only [hok]
      have h2 := popStep_nodup o st parts i rroot rriS current (part :: rest) st₂ r2 rr2 c2 hnd hok
      by_cases hdash : part = "-"
      · simp [hdash, h2]
      · simp only [if_neg hdash]
        exact ih st₂ parts (i + 1) r2 rr2 (getProp st₂.heap c2 part) h2

theorem populatePath_nodup (o : Options) (st : PState) (pointer : String)
    (hnd : st.save_queue.Nodup) :
    ((JSONPatchMongoose.populatePath o st pointer).1).save_queue.Nodup := by
  unfold JSONPatchMongoose.populatePath
  exact popAux_nodup o _ _ _ _ _ _ _ hnd

theorem setPath_queue (st : PState) (p : String) (v : JSValue) :
    ((JSONPatchMongoose.setPath st p v).1).save_queue = st.save_queue := by
  unfold JSONPatchMongoose.setPath
  split <;> rfl

theorem resolveAddValue_queue (o : Options) (st : PState) (parent v : JSValue)
    (st₁ : PState) (v₁ : JSValue)
    (hok : JSONPatchMongoose.resolveAddValue o st parent v = .ok (st₁, v₁)) :
    st₁.save_queue = st.save_queue := by
  unfold JSONPatchMongoose.resolveAddValue at hok
  repeat' split at hok
  all_goals
    first
    | exact Except.noConfusion hok
    | (simp only [Except.ok.injEq, Prod.mk.injEq] at hok
       obtain ⟨h2, -⟩ := hok
       subst h2
       rfl)

theorem replace_queue (st : PState) (it : PatchItem) :
    ((JSONPatchMongoose.replace st it).1).save_queue = st.save_queue := by
  unfold JSONPatchMongoose.replace
  exact setPath_queue _ _ _

theorem remove_queue (st : PState) (it : PatchItem) :
    ((JSONPatchMongoose.remove st it).1).save_queue = st.save_queue := by
  unfold JSONPatchMongoose.remove
  cases hw : JSONPatchMongoose.walkPath st
      (JSONPatchMongoose.jsonPointerToMongoosePath it.path) (-1) with
  | error e => simp [hw]
  | ok res =>
    obtain ⟨parent, owner, osegs⟩ := res
    simp only [hw]
    split
    · rfl
    · exact setPath_queue _ _ _

theorem add_queue (o : Options) (st : PState) (it : PatchItem) :
    ((JSONPatchMongoose.add o st it).1).save_queue = st.save_queue := by
  unfold JSONPatchMongoose.add
  cases hw : JSONPatchMongoose.walkPath st
      (JSONPatchMongoose.jsonPointerToMongoosePath it.path) (-1) with
  | error e => simp [hw]
  | ok res =>
    obtain ⟨parent, owner, osegs⟩ := res
    simp only [hw]
    split
    · cases hra : JSONPatchMongoose.resolveAddValue o st parent (itemValue it) with
      | error e => simp [hra]
      | ok pr =>
        obtain ⟨st₁, v₁⟩ := pr
        have hq := resolveAddValue_queue o st parent (itemValue it) st₁ v₁ hra
        simp only [hra]
        split
        · simpa [JSONPatchMongoose.pushAt] using hq
        · simpa [JSONPatchMongoose.spliceAt] using hq
    · exact setPath_queue _ _ _

theorem copy_queue (st : PState) (it : PatchItem) :
    ((JSONPatchMongoose.copy st it).1).save_queue = st.save_queue := by
  unfold JSONPatchMongoose.copy
  cases hc : it.fromPath with
  | none => rfl
  | some f =>
    exact setPath_queue _ _ _

theorem move_queue (st : PState) (it : PatchItem) :
    ((JSONPatchMongoose.move st it).1).save_queue = st.save_queue := by
  unfold JSONPatchMongoose.move
  cases hc : it.fromPath with
  | none => rfl
  | some f =>
    cases hsp : JSONPatchMongoose.setPath st
        (JSONPatchMongoose.jsonPointerToMongoosePath it.path)
        (docGet st.heap st.rootDoc (JSONPatchMongoose.jsonPointerToMongoosePath f)) with
    | mk st₁ oe =>
      have hq1 : st₁.save_queue = st.save_queue := by
        have h := setPath_queue st (JSONPatchMongoose.jsonPointerToMongoosePath it.path)
          (docGet st.heap st.rootDoc (JSONPatchMongoose.jsonPointerToMongoosePath f))
        rw [hsp] at h
        exact h
      simp only [hsp]
      cases oe with
      | some e => exact hq1
      | none =>
        rw [setPath_queue st₁ (JSONPatchMongoose.jsonPointerToMongoosePath f) .null]
        exact hq1

theorem testOp_queue (st : PState) (it : PatchItem) :
    (((JSONPatchMongoose.testOp st it).1).1).save_queue = st.save_queue := by
  unfold JSONPatchMongoose.testOp
  cases hde : deqV (docGet st.heap st.rootDoc it.path) (itemValue it) <;> simp [hde]

theorem dispatchOp_queue (o : Options) (st : PState) (it : PatchItem) :
    ((JSONPatchMongoose.dispatchOp o st it).1).save_queue = st.save_queue := by
  unfold JSONPatchMongoose.dispatchOp
  split
  · exact replace_queue st it
  · exact remove_queue st it
  · exact add_queue o st it
  · exact copy_queue st it
  · exact move_queue st it
  · exact testOp_queue st it
  · rfl

theorem runItems_nodup (o : Options) :
    ∀ (patch : List PatchItem) (st : PState), st.save_queue.Nodup →
      ((JSONPatchMongoose.runItems o st patch).1).save_queue.Nodup := by
  intro patch
  induction patch with
  | nil => intro st hnd; exact hnd
  | cons it rest ih =>
    intro st hnd
    unfold JSONPatchMongoose.runItems
    cases hpp : JSONPatchMongoose.populatePath o st it.path with
    | mk st₁ oe =>
      have h1 : st₁.save_queue.Nodup := by
        have h := populatePath_nodup o st it.path hnd
        rw [hpp] at h
        exact h
      cases oe with
      | some e => simpa [hpp] using h1
      | none =>
        simp only [hpp]
        cases hd : JSONPatchMongoose.dispatchOp o st₁ it with
        | mk st₂ oe₂ =>
          have h2 : st₂.save_queue.Nodup := by
            have h := dispatchOp_queue o st₁ it
            rw [hd] at h
            rw [show st₂ = (JSONPatchMongoose.dispatchOp o st₁ it).1 from by rw [hd]] at h ⊢
            exact h ▸ h1
          cases oe₂ with
          | some e => simpa [hd] using h2
          | none =>
            simp only [hd]
            exact ih st₂ h2

theorem save_queue_fixed (st : PState) :
    (JSONPatchMongoose.save st).save_queue = st.save_queue := rfl

/-- Claim C9: throughout every `apply` run the save queue holds each entity at
most once — membership is checked before every push — so starting from a
duplicate-free queue (the constructor creates `[]`, and `apply` resets it to
the root singleton), the queue after the run is still duplicate-free, no
matter how many operations touch an entity or how many paths resolve through
it. -/
theorem c9_save_queue_nodup (o : Options) (st : PState) (patch : List PatchItem)
    (hnd : st.save_queue.Nodup) :
    ((JSONPatchMongoose.apply o st patch).1).save_queue.Nodup := by
  unfold JSONPatchMongoose.apply
  split
  · exact hnd
  · split
    · exact hnd
    · cases hri : JSONPatchMongoose.runItems o { st with save_queue := [st.rootDoc] } patch with
      | mk st₁ oe =>
        have h1 : st₁.save_queue.Nodup := by
          have h := runItems_nodup o patch { st with save_queue := [st.rootDoc] } (by simp)
          rw [hri] at h
          exact h
        cases oe with
        | some e => simpa [hri] using h1
        | none =>
          simp only [hri]
          split
          · simpa [save_queue_fixed] using h1
          · exact h1

/-- Claim C9, witness: a concrete run on the sample document leaves a
duplicate-free save queue. -/
theorem c9_witness :
    ((JSONPatchMongoose.apply plainOpts demoState
      [{ op := "replace", path := "/a", fromPath := none,
         value := some (.str "new") }]).1).save_queue.Nodup :=
  c9_save_queue_nodup plainOpts demoState
    [{ op := "replace", path := "/a", fromPath := none, value := some (.str "new") }]
    (by simp [demoState])
